import Mathlib

/-!
Shallow embedding of `src/fingerprint.js` (FingerprintService).

JavaScript strings are sequences of UTF-16 code units; we model a hash
input as a Lean `String` converted to its list of code units.  JS bitwise
operations work on 32-bit signed integers: `h & h` truncates the
double-precision intermediate to a signed 32-bit value, and `h << k`
is the 32-bit truncation of `h * 2^k`.  We model both with `toInt32`.
-/

/-- Signed 32-bit truncation, the semantics of JavaScript `x | 0` / `x & x`
and the wrap-around of the `<<` shift result. -/
def toInt32 (n : Int) : Int :=
  if n % 4294967296 < 2147483648 then n % 4294967296
  else n % 4294967296 - 4294967296

/-- The lowercase hexadecimal digit for a value below 16 (JS
`Number.prototype.toString(16)` digit alphabet). -/
def hexDigitChar (n : Nat) : Char :=
  if n = 0 then '0' else if n = 1 then '1' else if n = 2 then '2'
  else if n = 3 then '3' else if n = 4 then '4' else if n = 5 then '5'
  else if n = 6 then '6' else if n = 7 then '7' else if n = 8 then '8'
  else if n = 9 then '9' else if n = 10 then 'a' else if n = 11 then 'b'
  else if n = 12 then 'c' else if n = 13 then 'd' else if n = 14 then 'e'
  else if n = 15 then 'f' else '0'

/-- Fuel-based base-16 rendering loop (least significant digit is computed
first and pushed onto the accumulator). -/
def toHexCore : Nat → Nat → List Char → List Char
  | 0, _, acc => acc
  | fuel + 1, n, acc =>
    let acc' := hexDigitChar (n % 16) :: acc
    if n < 16 then acc' else toHexCore fuel (n / 16) acc'

/-- JS `n.toString(16)` for a natural number: lowercase hex digits, no
leading zeros, `"0"` for zero. -/
def jsHexNat (n : Nat) : List Char := toHexCore (n + 1) n []

/-- JS `s.padStart(8, '0')`: left-pad with `'0'` up to length 8; strings
already of length 8 or more are returned unchanged. -/
def padStart8 (l : List Char) : List Char :=
  List.replicate (8 - l.length) '0' ++ l

/-- `Math.abs(h).toString(16).padStart(8, '0')`, as used for each of the
four passes of `simpleHash`. -/
def hashPart (v : Int) : List Char := padStart8 (jsHexNat v.natAbs)

/-- UTF-16 code units of one character (surrogate pair for astral
code points), matching what JS `charCodeAt` traverses. -/
def cuOfChar (c : Char) : List Nat :=
  if c.toNat < 65536 then [c.toNat]
  else [55296 + (c.toNat - 65536) / 1024, 56320 + (c.toNat - 65536) % 1024]

/-- The sequence of UTF-16 code units of a string. -/
def utf16Units (s : String) : List Nat := (s.data.map cuOfChar).flatten

/-- One step of pass 1 of `simpleHash`:
`hash = ((hash << 5) - hash) + char; hash = hash & hash`. -/
def step1 (h : Int) (c : Nat) : Int := toInt32 (toInt32 (h * 32) - h + c)

/-- One step of pass 2: `hash2 = ((hash2 << 7) - hash2) + char + i`,
truncated to 32 bits. -/
def step2 (h : Int) (c i : Nat) : Int := toInt32 (toInt32 (h * 128) - h + c + i)

/-- One step of pass 3: `hash3 = ((hash3 << 3) - hash3) + char * (i + 1)`,
truncated to 32 bits. -/
def step3 (h : Int) (c i : Nat) : Int := toInt32 (toInt32 (h * 8) - h + c * (i + 1))

/-- One step of pass 4 (DJB2 style): `hash4 = ((hash4 << 5) + hash4) + char`,
truncated to 32 bits. -/
def step4 (h : Int) (c : Nat) : Int := toInt32 (toInt32 (h * 32) + h + c)

/-- Pass 1 loop: `for (let i = 0; i < str.length; i++)`. -/
def loop1 : List Nat → Int → Int
  | [], h => h
  | c :: cs, h => loop1 cs (step1 h c)

/-- Pass 2 loop, carrying the running index `i`. -/
def loop2 : List Nat → Nat → Int → Int
  | [], _, h => h
  | c :: cs, i, h => loop2 cs (i + 1) (step2 h c i)

/-- Pass 3 loop: `for (let i = str.length - 1; i >= 0; i--)`, reading
`str.charCodeAt(i)`; the first argument is the whole code-unit list, the
fuel counts the indices still to visit (started at `u.length`). -/
def loop3 (u : List Nat) : Nat → Int → Int
  | 0, h => h
  | k + 1, h => loop3 u k (step3 h (u.getD k 0) k)

/-- Pass 4 loop, started from 5381. -/
def loop4 : List Nat → Int → Int
  | [], h => h
  | c :: cs, h => loop4 cs (step4 h c)

/-- `simpleHash` of `src/fingerprint.js` (lines 60-94): four 32-bit
rolling-hash passes over the code units, each rendered as
`Math.abs(h).toString(16).padStart(8, '0')`, concatenated. -/
def simpleHash (str : String) : String :=
  let u := utf16Units str
  ⟨hashPart (loop1 u 0) ++ hashPart (loop2 u 0 0) ++
   hashPart (loop3 u u.length 0) ++ hashPart (loop4 u 5381)⟩

/-- Reference pass 1, following the spec's words: a forward pass with
recurrence `h = (h<<5) - h + char`. -/
def specPass1 (u : List Nat) : Int := u.foldl step1 0

/-- Reference pass 2, following the spec's words: a forward pass with
positional weighting `h = (h<<7) - h + char + i`, the position paired
with each code unit. -/
def specPass2 (u : List Nat) : Int :=
  ((List.range u.length).zip u).foldl (fun h ic => step2 h ic.2 ic.1) 0

/-- Reference pass 3, following the spec's words: a reverse pass with
positional multiplier `h = (h<<3) - h + char * (i + 1)`. -/
def specPass3 (u : List Nat) : Int :=
  (((List.range u.length).zip u).reverse).foldl (fun h ic => step3 h ic.2 ic.1) 0

/-- Reference pass 4, following the spec's words: a forward DJB2-style pass
`h = (h<<5) + h + char` starting from 5381. -/
def specPass4 (u : List Nat) : Int := u.foldl step4 5381

/-- Modelled from the spec: the reference fallback digest — the four pass
values, each reduced to its absolute value, rendered as 8 lowercase hex
digits zero-padded on the left, concatenated in the fixed order 1,2,3,4. -/
def specFallbackDigest (s : String) : String :=
  let u := utf16Units s
  ⟨padStart8 (jsHexNat (specPass1 u).natAbs) ++
   padStart8 (jsHexNat (specPass2 u).natAbs) ++
   padStart8 (jsHexNat (specPass3 u).natAbs) ++
   padStart8 (jsHexNat (specPass4 u).natAbs)⟩

/-- `sha256` of `src/fingerprint.js` (lines 101-118).  The cryptographic
primitive is an external collaborator: `none` models `crypto.subtle`
being absent (non-secure context); `some f` with `f s = none` models
`crypto.subtle.digest` throwing; `some f` with `f s = some d` models a
successful digest `d`.  On either failure the function falls back to
`simpleHash` after a console warning (warnings are not modelled). -/
def sha256 (crypto : Option (String → Option String)) (str : String) : String :=
  match crypto with
  | some f =>
    match f str with
    | some digest => digest
    | none => simpleHash str
  | none => simpleHash str

/-- A JavaScript value as it appears in a fingerprint attribute record:
the source passes strings and numbers; `Array.prototype.join` stringifies
both.  Numbers are modelled as integers (every value the repository
produces or tests is integral). -/
inductive JSVal where
  | str : String → JSVal
  | num : Int → JSVal
deriving DecidableEq

/-- JS string conversion as performed by `Array.prototype.join`. -/
def jsValToString : JSVal → String
  | .str s => s
  | .num n => toString n

/-- The seven collected fingerprint attributes (the `platform` tag is
supplied separately by the caller; `pixelDensity` models the source
field `pixelRatio`). -/
structure AttrRecord where
  devicePlatform : JSVal
  osVersion : JSVal
  screenWidth : JSVal
  screenHeight : JSVal
  pixelDensity : JSVal
  timezone : JSVal
  language : JSVal
deriving DecidableEq

/-- The canonical string of `generateHash` (lines 150-159): the eight
fields joined with `"|"` in fixed order, numbers stringified. -/
def fingerprintString (r : AttrRecord) (plat : String) : String :=
  String.intercalate "|"
    [jsValToString r.devicePlatform, jsValToString r.osVersion,
     jsValToString r.screenWidth, jsValToString r.screenHeight,
     jsValToString r.pixelDensity, jsValToString r.timezone,
     jsValToString r.language, plat]

/-- The platform validation of `generateHash` (lines 144-147): any value
other than `"admin"` or `"shell"` is coerced to `"admin"`. -/
def validatePlatform (p : String) : String :=
  if p ≠ "admin" ∧ p ≠ "shell" then "admin" else p

/-- `generateHash` (lines 133-162): destructures the record with default
`platform = 'admin'` (modelled by an `Option String` argument), validates
the platform, joins the fields and digests the result. -/
def generateHash (crypto : Option (String → Option String)) (r : AttrRecord)
    (p : Option String) : String :=
  sha256 crypto (fingerprintString r (validatePlatform (p.getD "admin")))

/-- ASCII lowercasing of one character, the effect of JS `toLowerCase`
on the characters the classifier's patterns can match. -/
def jsLowerChar (c : Char) : Char :=
  if 65 ≤ c.toNat ∧ c.toNat ≤ 90 then Char.ofNat (c.toNat + 32) else c

/-- JS `ua.toLowerCase()` over the character list. -/
def jsLower (l : List Char) : List Char := l.map jsLowerChar

/-- Does `s` start with the pattern `pat`? -/
def headMatches : List Char → List Char → Bool
  | [], _ => true
  | _ :: _, [] => false
  | p :: ps, c :: cs => p == c && headMatches ps cs

/-- Does `s` contain `pat` as a contiguous subsequence?  This is
`/pat/.test(s)` for a pattern that is a literal (or a literal
alternation, tested once per alternative). -/
def hasSub (pat : List Char) : List Char → Bool
  | [] => pat.isEmpty
  | c :: cs => headMatches pat (c :: cs) || hasSub pat cs

/-- `getPlatformType` (lines 13-21): ordered substring tests over the
lower-cased user agent, first match wins, `"web"` otherwise. -/
def getPlatformType (ua : List Char) : String :=
  if hasSub ("android".toList) (jsLower ua) then "android"
  else if hasSub ("iphone".toList) (jsLower ua) || hasSub ("ipad".toList) (jsLower ua)
       || hasSub ("ipod".toList) (jsLower ua) then "ios"
  else if hasSub ("macintosh".toList) (jsLower ua)
       || hasSub ("mac os".toList) (jsLower ua) then "macos"
  else if hasSub ("windows".toList) (jsLower ua) then "windows"
  else if hasSub ("linux".toList) (jsLower ua) then "linux"
  else "web"

/-- The ECMAScript `\s` character class. -/
def isJsSpace (c : Char) : Bool :=
  c == ' ' || c == '\t' || c == '\n' || c.toNat == 11 || c.toNat == 12 ||
  c == '\r' || c.toNat == 160 || c.toNat == 5760 ||
  (8192 ≤ c.toNat && c.toNat ≤ 8202) || c.toNat == 8232 || c.toNat == 8233 ||
  c.toNat == 8239 || c.toNat == 8287 || c.toNat == 12288 || c.toNat == 65279

/-- The `[\d.]` character class. -/
def isDigitDot (c : Char) : Bool := c.isDigit || c == '.'

/-- The `[\d_]` character class. -/
def isDigitUnd (c : Char) : Bool := c.isDigit || c == '_'

/-- One character of `replace(/_/g, '.')`. -/
def undToDot (c : Char) : Char := if c == '_' then '.' else c

/-- Attempt the regex `lit\s(cls+)` at the start of `s`: the literal,
then exactly one whitespace character, then a maximal non-empty run of
class characters (the capture). -/
def tryMatchAt (lit : List Char) (cls : Char → Bool) (s : List Char) :
    Option (List Char) :=
  if headMatches lit s then
    match s.drop lit.length with
    | [] => none
    | w :: rest =>
      if isJsSpace w then
        let cap := rest.takeWhile cls
        if cap.isEmpty then none else some cap
      else none
  else none

/-- `s.match(/lit\s(cls+)/)`: try the pattern at each position from the
left; the first position where it matches yields the capture. -/
def scanMatch (lit : List Char) (cls : Char → Bool) : List Char → Option (List Char)
  | [] => none
  | c :: cs =>
    match tryMatchAt lit cls (c :: cs) with
    | some cap => some cap
    | none => scanMatch lit cls cs

/-- `getOSVersion` (lines 27-37): four patterns in fixed order; the first
match's capture is returned, with `_` replaced by `.` for the second and
fourth patterns; `"unknown"` when none match. -/
def getOSVersion (ua : List Char) : String :=
  match scanMatch ("Android".toList) isDigitDot ua with
  | some cap => ⟨cap⟩
  | none =>
    match scanMatch ("OS".toList) isDigitUnd ua with
    | some cap => ⟨cap.map undToDot⟩
    | none =>
      match scanMatch ("Windows NT".toList) isDigitDot ua with
      | some cap => ⟨cap⟩
      | none =>
        match scanMatch ("Mac OS X".toList) isDigitUnd ua with
        | some cap => ⟨cap.map undToDot⟩
        | none => "unknown"

/-- The host environment consumed by `collectAttributes`: user agent,
screen geometry, device pixel ratio (`dpr`), timezone, language, and the
optional cryptographic digest primitive. -/
structure Env where
  userAgent : List Char
  screenWidth : Int
  screenHeight : Int
  dpr : Int
  timezone : String
  language : String
  crypto : Option (String → Option String)

/-- `collectAttributes` (lines 43-53); `window.devicePixelRatio || 1`
defaults a falsy (zero) pixel ratio to 1. -/
def collectAttributes (e : Env) : AttrRecord :=
  { devicePlatform := .str (getPlatformType e.userAgent)
    osVersion := .str (getOSVersion e.userAgent)
    screenWidth := .num e.screenWidth
    screenHeight := .num e.screenHeight
    pixelDensity := .num (if e.dpr = 0 then 1 else e.dpr)
    timezone := .str e.timezone
    language := .str e.language }

/-- The object returned by `getFingerprint`: the collected attributes
together with the caller's (unvalidated) platform tag, and the hash. -/
structure FingerprintResult where
  attributes : AttrRecord
  platform : String
  hash : String

/-- `getFingerprint` (lines 169-183): collects attributes, spreads in the
caller's platform (default `"admin"`), hashes via `generateHash`, and
returns the attributes (with the raw platform value) beside the hash. -/
def getFingerprint (e : Env) (p : Option String) : FingerprintResult :=
  let plat := p.getD "admin"
  let attrs := collectAttributes e
  { attributes := attrs
    platform := plat
    hash := generateHash e.crypto attrs (some plat) }

/-- Replace a value by its string form (the observational collapse
performed by canonicalization). -/
def stringifyVal (v : JSVal) : JSVal := .str (jsValToString v)

/-- Replace every field of a record by its string form. -/
def stringifyRecord (r : AttrRecord) : AttrRecord :=
  { devicePlatform := stringifyVal r.devicePlatform
    osVersion := stringifyVal r.osVersion
    screenWidth := stringifyVal r.screenWidth
    screenHeight := stringifyVal r.screenHeight
    pixelDensity := stringifyVal r.pixelDensity
    timezone := stringifyVal r.timezone
    language := stringifyVal r.language }

/-- A small concrete host environment (no cryptographic primitive, so the
digest takes the fallback path). -/
def env0 : Env :=
  { userAgent := "x".toList, screenWidth := 1, screenHeight := 1, dpr := 1,
    timezone := "a", language := "b", crypto := none }

/-- A small concrete attribute record. -/
def sampleRecord : AttrRecord :=
  { devicePlatform := .str "web", osVersion := .str "unknown",
    screenWidth := .num 1, screenHeight := .num 1, pixelDensity := .num 1,
    timezone := .str "a", language := .str "b" }

/-- The record of the spec's end-to-end example. -/
def recC8 : AttrRecord :=
  { devicePlatform := .str "macos", osVersion := .str "10.15.7",
    screenWidth := .num 1440, screenHeight := .num 900,
    pixelDensity := .num 2, timezone := .str "America/New_York",
    language := .str "en-US" }

/-- `sampleRecord` with a numeric screen width of 1440. -/
def recNum1440 : AttrRecord := { sampleRecord with screenWidth := .num 1440 }

/-- `sampleRecord` with the string "1440" as screen width. -/
def recStr1440 : AttrRecord := { sampleRecord with screenWidth := .str "1440" }

/-! ## Theorems -/

/-- **C2** — For every attribute record and every application-context
platform value that is not `"admin"` and not `"shell"` (including a
missing platform, modelled by `none`), `generateHash` returns the same
digest as with platform `"admin"`: the invalid value is coerced, never
rejected. -/
theorem c2_platform_coercion (crypto : Option (String → Option String))
    (r : AttrRecord) (p : Option String)
    (h1 : p ≠ some "admin") (h2 : p ≠ some "shell") :
    generateHash crypto r p = generateHash crypto r (some "admin") := by
  cases p with
  | none => rfl
  | some q =>
    have hq1 : q ≠ "admin" := fun h => h1 (by rw [h])
    have hq2 : q ≠ "shell" := fun h => h2 (by rw [h])
    simp [generateHash, validatePlatform, hq1, hq2]

/-- Witness for `c2_platform_coercion` at the concrete platform value
`"bogus"`. -/
theorem c2_platform_coercion_witness :
    (some "bogus" : Option String) ≠ some "admin" ∧
    (some "bogus" : Option String) ≠ some "shell" ∧
    generateHash none sampleRecord (some "bogus") =
      generateHash none sampleRecord (some "admin") :=
  ⟨by decide, by decide,
   c2_platform_coercion none sampleRecord (some "bogus") (by decide) (by decide)⟩

/-- **C4** — When the cryptographic digest primitive is unavailable
(`crypto = none`), or when invoking it raises an error (`f s = none`),
the digest operation returns the fallback digest `simpleHash` to the
caller rather than failing; every input yields a digest string. -/
theorem c4_digest_fallback (crypto : Option (String → Option String))
    (s : String)
    (h : crypto = none ∨ ∃ f, crypto = some f ∧ f s = none) :
    sha256 crypto s = simpleHash s := by
  rcases h with h | ⟨f, hf, hfs⟩
  · subst h; rfl
  · rw [hf]; simp [sha256, hfs]

/-- Witness for `c4_digest_fallback` in the unavailable-primitive case. -/
theorem c4_digest_fallback_witness :
    ((none : Option (String → Option String)) = none ∨
      ∃ f, (none : Option (String → Option String)) = some f ∧ f "" = none) ∧
    sha256 none "" = simpleHash "" :=
  ⟨Or.inl rfl, c4_digest_fallback none "" (Or.inl rfl)⟩

/-- **C8** — For the spec's end-to-end example record with platform
`"admin"`, the canonical string handed to the digest is exactly
`macos|10.15.7|1440|900|2|America/New_York|en-US|admin`. -/
theorem c8_canonical_example :
    fingerprintString recC8 (validatePlatform "admin") =
      "macos|10.15.7|1440|900|2|America/New_York|en-US|admin" ∧
    ∀ crypto, generateHash crypto recC8 (some "admin") =
      sha256 crypto "macos|10.15.7|1440|900|2|America/New_York|en-US|admin" := by
  refine ⟨by decide, fun crypto => ?_⟩
  exact congrArg (sha256 crypto) (by decide)

/-- **C9** — Canonicalization stringifies every field before joining, so
`generateHash` does not distinguish a numeric field from its decimal
string form: stringifying all fields leaves the digest unchanged, and the
two distinct typed records that differ only in `screenWidth` being the
number 1440 versus the string "1440" get equal digests (so `generateHash`
is not injective over typed records). -/
theorem c9_stringify_collapse :
    (∀ crypto r p, generateHash crypto (stringifyRecord r) p = generateHash crypto r p) ∧
    recNum1440 ≠ recStr1440 ∧
    ∀ crypto p, generateHash crypto recNum1440 p = generateHash crypto recStr1440 p := by
  refine ⟨fun crypto r p => rfl, by decide, fun crypto p => ?_⟩
  unfold generateHash fingerprintString
  rw [show jsValToString recNum1440.screenWidth
        = jsValToString recStr1440.screenWidth from by decide]
  exact rfl

/-- **C1 (amended)** — For every environment and every platform argument
that is missing or valid (`"admin"` or `"shell"`), the result of
`getFingerprint` is internally consistent: its hash equals the digest of
the 8 returned fields (the 7 attributes plus the returned platform)
joined in the fixed order with `"|"`. -/
theorem c1_fingerprint_consistency (e : Env) (p : Option String)
    (h : p.getD "admin" = "admin" ∨ p.getD "admin" = "shell") :
    (getFingerprint e p).hash =
      sha256 e.crypto
        (fingerprintString (getFingerprint e p).attributes
          (getFingerprint e p).platform) := by
  have hv : validatePlatform (p.getD "admin") = p.getD "admin" := by
    unfold validatePlatform
    rcases h with h | h <;> rw [h] <;> simp
  show generateHash e.crypto (collectAttributes e) (some (p.getD "admin"))
      = sha256 e.crypto (fingerprintString (collectAttributes e) (p.getD "admin"))
  unfold generateHash
  rw [show (some (p.getD "admin")).getD "admin" = p.getD "admin" from rfl, hv]

/-- Witness for `c1_fingerprint_consistency` at platform `"shell"`. -/
theorem c1_fingerprint_consistency_witness :
    ((some "shell" : Option String).getD "admin" = "admin" ∨
      (some "shell" : Option String).getD "admin" = "shell") ∧
    (getFingerprint env0 (some "shell")).hash =
      sha256 env0.crypto
        (fingerprintString (getFingerprint env0 (some "shell")).attributes
          (getFingerprint env0 (some "shell")).platform) :=
  ⟨Or.inr rfl, c1_fingerprint_consistency env0 (some "shell") (Or.inr rfl)⟩

set_option maxRecDepth 20000 in
/-- **C1 counterexample** — With the platform argument `"bogus"`, the
returned attributes keep the raw value `"bogus"` while the hash is
computed from the coerced value `"admin"`, so the returned hash is not
the digest of the returned 8-tuple. -/
theorem c1_fingerprint_consistency_cex :
    ¬ ((getFingerprint env0 (some "bogus")).hash =
        sha256 env0.crypto
          (fingerprintString (getFingerprint env0 (some "bogus")).attributes
            (getFingerprint env0 (some "bogus")).platform)) := by
  decide

/-- Pass 1's loop is a left fold. -/
theorem loop1_eq_foldl (u : List Nat) (h : Int) : loop1 u h = u.foldl step1 h := by
  induction u generalizing h with
  | nil => rfl
  | cons c cs ih => rw [loop1, List.foldl_cons]; exact ih _

/-- Pass 4's loop is a left fold. -/
theorem loop4_eq_foldl (u : List Nat) (h : Int) : loop4 u h = u.foldl step4 h := by
  induction u generalizing h with
  | nil => rfl
  | cons c cs ih => rw [loop4, List.foldl_cons]; exact ih _

/-- Pass 2's indexed loop is a fold over the position-value pairs. -/
theorem loop2_eq_zip (u : List Nat) (i : Nat) (h : Int) :
    loop2 u i h =
      ((List.range' i u.length).zip u).foldl (fun h ic => step2 h ic.2 ic.1) h := by
  induction u generalizing i h with
  | nil => rfl
  | cons c cs ih =>
    rw [loop2, List.length_cons, List.range'_succ, List.zip_cons_cons,
      List.foldl_cons]
    exact ih _ _

/-- `getD` on an extended list agrees with the original below its length. -/
theorem getD_append_of_lt (v w : List Nat) (j : Nat) (hj : j < v.length) :
    (v ++ w).getD j 0 = v.getD j 0 := by
  induction v generalizing j with
  | nil => simp at hj
  | cons a as ih =>
    cases j with
    | zero => rfl
    | succ j =>
      rw [List.cons_append, List.getD_cons_succ, List.getD_cons_succ]
      exact ih j (by simpa using Nat.lt_of_succ_lt_succ hj)

/-- `getD` at the index of a freshly appended element. -/
theorem getD_concat_self (v : List Nat) (a : Nat) :
    (v ++ [a]).getD v.length 0 = a := by
  induction v with
  | nil => rfl
  | cons b bs ih => simp only [List.cons_append, List.length_cons, List.getD_cons_succ]; exact ih

/-- Pass 3's downward loop ignores list elements at or above its fuel. -/
theorem loop3_append (v : List Nat) (a : Nat) (k : Nat) (h : Int)
    (hk : k ≤ v.length) : loop3 (v ++ [a]) k h = loop3 v k h := by
  induction k generalizing h with
  | zero => rfl
  | succ k ih =>
    rw [loop3, loop3, getD_append_of_lt v [a] k (by omega)]
    exact ih _ (by omega)

/-- Pass 3's downward indexed loop is a fold over the reversed
position-value pairs. -/
theorem loop3_eq_spec (u : List Nat) (h : Int) :
    loop3 u u.length h =
      (((List.range u.length).zip u).reverse).foldl
        (fun h ic => step3 h ic.2 ic.1) h := by
  induction u using List.reverseRecOn generalizing h with
  | nil => rfl
  | append_singleton v a ih =>
    have hlen : (v ++ [a]).length = v.length + 1 := by simp
    rw [hlen]
    have hzip : (List.range (v.length + 1)).zip (v ++ [a])
        = ((List.range v.length).zip v) ++ [(v.length, a)] := by
      rw [show v.length + 1 = Nat.succ v.length from rfl, List.range_succ,
        List.zip_append (by simp)]
      rfl
    rw [loop3, getD_concat_self, loop3_append v a v.length _ le_rfl, ih,
      hzip, List.reverse_append]
    rfl

/-- **C3** — For every input string the fallback digest `simpleHash`
equals the reference definition from the spec: four independent 32-bit
rolling hashes (forward; forward with positional weighting; reverse with
positional multiplier; forward DJB2-style from 5381), each truncated to
32 bits at every step, reduced to its absolute value, rendered as 8
lowercase zero-padded hex digits, and concatenated in that fixed order. -/
theorem c3_fallback_reference (s : String) : simpleHash s = specFallbackDigest s := by
  simp only [simpleHash, specFallbackDigest, hashPart, specPass1, specPass2,
    specPass3, specPass4]
  rw [loop1_eq_foldl, loop4_eq_foldl, loop2_eq_zip, loop3_eq_spec,
    ← List.range_eq_range']

/-- A lowercase hexadecimal digit, the character class `[0-9a-f]`. -/
def isLowerHex (c : Char) : Bool := c.isDigit || ('a' ≤ c && c ≤ 'f')

/-- `toInt32` always lands in the signed 32-bit range. -/
theorem toInt32_bounds (n : Int) :
    -2147483648 ≤ toInt32 n ∧ toInt32 n < 2147483648 := by
  unfold toInt32
  have h1 : 0 ≤ n % 4294967296 := Int.emod_nonneg n (by decide)
  have h2 : n % 4294967296 < 4294967296 := Int.emod_lt_of_pos n (by decide)
  split <;> omega

/-- Pass 1 keeps the accumulator in the signed 32-bit range. -/
theorem loop1_range (u : List Nat) (h : Int)
    (hl : -2147483648 ≤ h) (hu : h < 2147483648) :
    -2147483648 ≤ loop1 u h ∧ loop1 u h < 2147483648 := by
  induction u generalizing h with
  | nil => exact ⟨hl, hu⟩
  | cons c cs ih =>
    have hb := toInt32_bounds (toInt32 (h * 32) - h + (c : Int))
    exact ih (step1 h c) hb.1 hb.2

/-- Pass 2 keeps the accumulator in the signed 32-bit range. -/
theorem loop2_range (u : List Nat) (i : Nat) (h : Int)
    (hl : -2147483648 ≤ h) (hu : h < 2147483648) :
    -2147483648 ≤ loop2 u i h ∧ loop2 u i h < 2147483648 := by
  induction u generalizing i h with
  | nil => exact ⟨hl, hu⟩
  | cons c cs ih =>
    have hb := toInt32_bounds (toInt32 (h * 128) - h + (c : Int) + (i : Int))
    exact ih (i + 1) (step2 h c i) hb.1 hb.2

/-- Pass 3 keeps the accumulator in the signed 32-bit range. -/
theorem loop3_range (u : List Nat) (k : Nat) (h : Int)
    (hl : -2147483648 ≤ h) (hu : h < 2147483648) :
    -2147483648 ≤ loop3 u k h ∧ loop3 u k h < 2147483648 := by
  induction k generalizing h with
  | zero => exact ⟨hl, hu⟩
  | succ k ih =>
    have hb := toInt32_bounds (toInt32 (h * 8) - h + (u.getD k 0 : Int) * ((k : Int) + 1))
    exact ih (step3 h (u.getD k 0) k) hb.1 hb.2

/-- Pass 4 keeps the accumulator in the signed 32-bit range. -/
theorem loop4_range (u : List Nat) (h : Int)
    (hl : -2147483648 ≤ h) (hu : h < 2147483648) :
    -2147483648 ≤ loop4 u h ∧ loop4 u h < 2147483648 := by
  induction u generalizing h with
  | nil => exact ⟨hl, hu⟩
  | cons c cs ih =>
    have hb := toInt32_bounds (toInt32 (h * 32) + h + (c : Int))
    exact ih (step4 h c) hb.1 hb.2

/-- The hex rendering of a value below `16 ^ k` (for positive `k`) takes
at most `k` digits. -/
theorem toHexCore_length (fuel : Nat) :
    ∀ k n acc, n < 16 ^ k → 1 ≤ k →
      (toHexCore fuel n acc).length ≤ k + acc.length := by
  induction fuel with
  | zero => intro k n acc _ _; rw [toHexCore]; omega
  | succ fuel ih =>
    intro k n acc hn hk
    rw [toHexCore]
    by_cases h16 : n < 16
    · rw [if_pos h16]; simp only [List.length_cons]; omega
    · rw [if_neg h16]
      have hk2 : 2 ≤ k := by
        rcases Nat.lt_or_ge k 2 with hc | hc
        · have : k = 1 := by omega
          subst this; simp at hn; omega
        · exact hc
      have hpow : 16 ^ (k - 1) * 16 = 16 ^ k := by
        rw [← pow_succ]
        congr 1
        omega
      have hdiv : n / 16 < 16 ^ (k - 1) := by
        rw [Nat.div_lt_iff_lt_mul (by norm_num)]
        omega
      have := ih (k - 1) (n / 16) (hexDigitChar (n % 16) :: acc) hdiv (by omega)
      simp only [List.length_cons] at this
      omega

/-- Hex rendering of a 32-bit magnitude takes at most 8 digits. -/
theorem jsHexNat_length (n : Nat) (hn : n < 4294967296) :
    (jsHexNat n).length ≤ 8 := by
  have h := toHexCore_length (n + 1) 8 n [] (by norm_num; omega) (by norm_num)
  simpa using h

/-- Each rendered pass of `simpleHash` is exactly 8 characters. -/
theorem hashPart_length (v : Int) (h1 : -2147483648 ≤ v)
    (h2 : v < 2147483648) : (hashPart v).length = 8 := by
  have hv : v.natAbs < 4294967296 := by omega
  have hlen := jsHexNat_length v.natAbs hv
  unfold hashPart padStart8
  rw [List.length_append, List.length_replicate]
  omega

/-- Every hex digit the renderer emits is a lowercase hex character. -/
theorem isLowerHex_hexDigitChar (n : Nat) : isLowerHex (hexDigitChar n) = true := by
  have hfin : ∀ m : Fin 17, isLowerHex (hexDigitChar m.val) = true := by decide
  by_cases hn : n < 16
  · exact hfin ⟨n, by omega⟩
  · have h0 : hexDigitChar n = '0' := by
      unfold hexDigitChar
      repeat rw [if_neg (by omega)]
    rw [h0]
    rfl

/-- The hex renderer only emits lowercase hex characters. -/
theorem toHexCore_all (fuel : Nat) :
    ∀ n acc, acc.all isLowerHex = true →
      (toHexCore fuel n acc).all isLowerHex = true := by
  induction fuel with
  | zero => intro n acc h; rw [toHexCore]; exact h
  | succ fuel ih =>
    intro n acc h
    rw [toHexCore]
    by_cases h16 : n < 16
    · rw [if_pos h16]
      simp [List.all_cons, isLowerHex_hexDigitChar, h]
    · rw [if_neg h16]
      exact ih _ _ (by simp [List.all_cons, isLowerHex_hexDigitChar, h])

/-- Each rendered pass of `simpleHash` consists of lowercase hex
characters only. -/
theorem hashPart_all (v : Int) : (hashPart v).all isLowerHex = true := by
  unfold hashPart padStart8
  rw [List.all_append]
  have h1 : (List.replicate (8 - (jsHexNat v.natAbs).length) '0').all isLowerHex = true := by
    rw [List.all_eq_true]
    intro c hc
    rw [List.eq_of_mem_replicate hc]
    rfl
  have h2 : (jsHexNat v.natAbs).all isLowerHex = true := toHexCore_all _ _ [] rfl
  rw [h1, h2]
  rfl

/-- The character list underlying `simpleHash`. -/
theorem simpleHash_data (s : String) :
    (simpleHash s).data =
      hashPart (loop1 (utf16Units s) 0) ++ hashPart (loop2 (utf16Units s) 0 0) ++
      hashPart (loop3 (utf16Units s) (utf16Units s).length 0) ++
      hashPart (loop4 (utf16Units s) 5381) := rfl

/-- **C7** — For every input string (the empty string included) the
fallback digest has length exactly 32 and every character is a lowercase
hex digit: each pass value, after the absolute value, renders to at most
8 hex digits and is left-padded to exactly 8. -/
theorem c7_fallback_digest_shape (s : String) :
    (simpleHash s).length = 32 ∧ (simpleHash s).data.all isLowerHex = true := by
  have b1 := loop1_range (utf16Units s) 0 (by norm_num) (by norm_num)
  have b2 := loop2_range (utf16Units s) 0 0 (by norm_num) (by norm_num)
  have b3 := loop3_range (utf16Units s) (utf16Units s).length 0 (by norm_num) (by norm_num)
  have b4 := loop4_range (utf16Units s) 5381 (by norm_num) (by norm_num)
  constructor
  · rw [show (simpleHash s).length = (simpleHash s).data.length from rfl,
      simpleHash_data, List.length_append, List.length_append,
      List.length_append, hashPart_length _ b1.1 b1.2,
      hashPart_length _ b2.1 b2.2, hashPart_length _ b3.1 b3.2,
      hashPart_length _ b4.1 b4.2]
  · rw [simpleHash_data, List.all_append, List.all_append, List.all_append,
      hashPart_all, hashPart_all, hashPart_all, hashPart_all]
    rfl

/-- `Char.ofNat` of a valid code point decodes back to it. -/
theorem toNat_ofNat_of_valid (n : Nat) (h : n.isValidChar) :
    (Char.ofNat n).toNat = n := by
  unfold Char.ofNat
  rw [dif_pos h]
  rfl

/-- ASCII lowercasing is idempotent. -/
theorem jsLowerChar_idem (c : Char) : jsLowerChar (jsLowerChar c) = jsLowerChar c := by
  unfold jsLowerChar
  by_cases h : 65 ≤ c.toNat ∧ c.toNat ≤ 90
  · rw [if_pos h]
    have ht : (Char.ofNat (c.toNat + 32)).toNat = c.toNat + 32 :=
      toNat_ofNat_of_valid _ (Or.inl (by omega))
    rw [if_neg (by rw [ht]; omega)]
  · rw [if_neg h, if_neg h]

/-- Lowercasing a character list is idempotent. -/
theorem jsLower_idem (l : List Char) : jsLower (jsLower l) = jsLower l := by
  unfold jsLower
  rw [List.map_map]
  have hfun : jsLowerChar ∘ jsLowerChar = jsLowerChar := funext jsLowerChar_idem
  rw [hfun]

/-- **C10** — Platform classification is invariant under letter case of
its input: classifying the lower-cased user agent gives the same tag as
classifying the raw user agent, because the classifier lower-cases its
input before matching. -/
theorem c10_classify_case_invariant (ua : List Char) :
    getPlatformType (jsLower ua) = getPlatformType ua := by
  unfold getPlatformType
  rw [jsLower_idem]

/-- `s` contains `pat` as a contiguous run. -/
def ContainsSeq (pat s : List Char) : Prop := ∃ t u, s = t ++ pat ++ u

/-- `headMatches` accepts any extension of the pattern itself. -/
theorem headMatches_self_append (pat u : List Char) :
    headMatches pat (pat ++ u) = true := by
  induction pat with
  | nil => rfl
  | cons p ps ih => simp [headMatches, ih]

/-- The empty pattern is found everywhere. -/
theorem hasSub_nil (s : List Char) : hasSub [] s = true := by
  cases s with
  | nil => rfl
  | cons c cs => simp [hasSub, headMatches]

/-- A pattern occurring as a contiguous run is found by `hasSub`. -/
theorem hasSub_middle (pat t u : List Char) :
    hasSub pat (t ++ pat ++ u) = true := by
  induction t with
  | nil =>
    cases pat with
    | nil => simpa using hasSub_nil u
    | cons p ps =>
      show hasSub (p :: ps) ((p :: ps) ++ u) = true
      simp only [hasSub, List.cons_append, Bool.or_eq_true]
      exact Or.inl (headMatches_self_append (p :: ps) u)
  | cons c t ih =>
    simp only [hasSub, List.cons_append, Bool.or_eq_true]
    exact Or.inr ih

/-- `hasSub` finds the pattern wherever `ContainsSeq` holds. -/
theorem hasSub_of_containsSeq (pat s : List Char) (h : ContainsSeq pat s) :
    hasSub pat s = true := by
  obtain ⟨t, u, rfl⟩ := h
  exact hasSub_middle pat t u

/-- A raw occurrence of an already-lowercase pattern survives
lowercasing of the surrounding string. -/
theorem containsSeq_jsLower (pat s : List Char) (hpat : jsLower pat = pat)
    (h : ContainsSeq pat s) : ContainsSeq pat (jsLower s) := by
  obtain ⟨t, u, rfl⟩ := h
  refine ⟨jsLower t, jsLower u, ?_⟩
  simp only [jsLower, List.map_append] at hpat ⊢
  rw [hpat]

/-- **C5** — Platform classification applies its patterns in the fixed
order android, iphone/ipad/ipod, macintosh/mac os, windows, linux over
the lower-cased user agent, first match wins, `"web"` when none match;
in particular any user agent containing both `"android"` and `"iphone"`
classifies as `"android"`. -/
theorem c5_platform_precedence (ua : List Char) :
    (hasSub ("android".toList) (jsLower ua) = true →
      getPlatformType ua = "android") ∧
    (hasSub ("android".toList) (jsLower ua) = false →
      (hasSub ("iphone".toList) (jsLower ua) || hasSub ("ipad".toList) (jsLower ua)
        || hasSub ("ipod".toList) (jsLower ua)) = true →
      getPlatformType ua = "ios") ∧
    (hasSub ("android".toList) (jsLower ua) = false →
      (hasSub ("iphone".toList) (jsLower ua) || hasSub ("ipad".toList) (jsLower ua)
        || hasSub ("ipod".toList) (jsLower ua)) = false →
      (hasSub ("macintosh".toList) (jsLower ua)
        || hasSub ("mac os".toList) (jsLower ua)) = true →
      getPlatformType ua = "macos") ∧
    (hasSub ("android".toList) (jsLower ua) = false →
      (hasSub ("iphone".toList) (jsLower ua) || hasSub ("ipad".toList) (jsLower ua)
        || hasSub ("ipod".toList) (jsLower ua)) = false →
      (hasSub ("macintosh".toList) (jsLower ua)
        || hasSub ("mac os".toList) (jsLower ua)) = false →
      hasSub ("windows".toList) (jsLower ua) = true →
      getPlatformType ua = "windows") ∧
    (hasSub ("android".toList) (jsLower ua) = false →
      (hasSub ("iphone".toList) (jsLower ua) || hasSub ("ipad".toList) (jsLower ua)
        || hasSub ("ipod".toList) (jsLower ua)) = false →
      (hasSub ("macintosh".toList) (jsLower ua)
        || hasSub ("mac os".toList) (jsLower ua)) = false →
      hasSub ("windows".toList) (jsLower ua) = false →
      hasSub ("linux".toList) (jsLower ua) = true →
      getPlatformType ua = "linux") ∧
    (hasSub ("android".toList) (jsLower ua) = false →
      (hasSub ("iphone".toList) (jsLower ua) || hasSub ("ipad".toList) (jsLower ua)
        || hasSub ("ipod".toList) (jsLower ua)) = false →
      (hasSub ("macintosh".toList) (jsLower ua)
        || hasSub ("mac os".toList) (jsLower ua)) = false →
      hasSub ("windows".toList) (jsLower ua) = false →
      hasSub ("linux".toList) (jsLower ua) = false →
      getPlatformType ua = "web") ∧
    (ContainsSeq ("android".toList) ua → ContainsSeq ("iphone".toList) ua →
      getPlatformType ua = "android") := by
  refine ⟨?_, ?_, ?_, ?_, ?_, ?_, ?_⟩
  · intro h1
    unfold getPlatformType
    rw [if_pos h1]
  · intro h1 h2
    unfold getPlatformType
    rw [if_neg (by rw [h1]; exact Bool.false_ne_true), if_pos h2]
  · intro h1 h2 h3
    unfold getPlatformType
    rw [if_neg (by rw [h1]; exact Bool.false_ne_true),
      if_neg (by rw [h2]; exact Bool.false_ne_true), if_pos h3]
  · intro h1 h2 h3 h4
    unfold getPlatformType
    rw [if_neg (by rw [h1]; exact Bool.false_ne_true),
      if_neg (by rw [h2]; exact Bool.false_ne_true),
      if_neg (by rw [h3]; exact Bool.false_ne_true), if_pos h4]
  · intro h1 h2 h3 h4 h5
    unfold getPlatformType
    rw [if_neg (by rw [h1]; exact Bool.false_ne_true),
      if_neg (by rw [h2]; exact Bool.false_ne_true),
      if_neg (by rw [h3]; exact Bool.false_ne_true),
      if_neg (by rw [h4]; exact Bool.false_ne_true), if_pos h5]
  · intro h1 h2 h3 h4 h5
    unfold getPlatformType
    rw [if_neg (by rw [h1]; exact Bool.false_ne_true),
      if_neg (by rw [h2]; exact Bool.false_ne_true),
      if_neg (by rw [h3]; exact Bool.false_ne_true),
      if_neg (by rw [h4]; exact Bool.false_ne_true),
      if_neg (by rw [h5]; exact Bool.false_ne_true)]
  · intro ha _hi
    have h1 : hasSub ("android".toList) (jsLower ua) = true :=
      hasSub_of_containsSeq _ _ (containsSeq_jsLower _ _ (by decide) ha)
    unfold getPlatformType
    rw [if_pos h1]

/-- Witness for `c5_platform_precedence` on a user agent containing both
`"android"` and `"iphone"`. -/
theorem c5_platform_precedence_witness :
    ContainsSeq ("android".toList) ("android iphone".toList) ∧
    ContainsSeq ("iphone".toList) ("android iphone".toList) ∧
    getPlatformType ("android iphone".toList) = "android" :=
  ⟨⟨[], " iphone".toList, by decide⟩, ⟨"android ".toList, [], by decide⟩,
   (c5_platform_precedence ("android iphone".toList)).2.2.2.2.2.2
     ⟨[], " iphone".toList, by decide⟩ ⟨"android ".toList, [], by decide⟩⟩

/-- A capture produced by `tryMatchAt` consists of class characters. -/
theorem tryMatchAt_all (lit : List Char) (cls : Char → Bool) (s v : List Char)
    (h : tryMatchAt lit cls s = some v) : v.all cls = true := by
  unfold tryMatchAt at h
  split at h
  · split at h
    · exact absurd h (by simp)
    · split at h
      · dsimp only at h
        split at h
        · exact absurd h (by simp)
        · cases h
          rw [List.all_eq_true]
          intro x hx
          exact List.mem_takeWhile_imp hx
      · exact absurd h (by simp)
  · exact absurd h (by simp)

/-- A capture produced by `scanMatch` consists of class characters. -/
theorem scanMatch_all (lit : List Char) (cls : Char → Bool) (s v : List Char)
    (h : scanMatch lit cls s = some v) : v.all cls = true := by
  induction s with
  | nil => exact absurd h (by simp [scanMatch])
  | cons c cs ih =>
    rw [scanMatch] at h
    split at h
    · cases h
      exact tryMatchAt_all lit cls (c :: cs) v (by assumption)
    · exact ih h

/-- Replacing underscores by dots is the identity on `[\d.]` captures. -/
theorem map_undToDot_of_digitDot (v : List Char) (h : v.all isDigitDot = true) :
    v.map undToDot = v := by
  induction v with
  | nil => rfl
  | cons c cs ih =>
    rw [List.all_cons, Bool.and_eq_true] at h
    have hc : c ≠ '_' := by
      intro hc
      subst hc
      exact absurd h.1 (by decide)
    rw [List.map_cons, ih h.2]
    congr 1
    unfold undToDot
    rw [if_neg (by simpa using hc)]

/-- **C6** — OS version extraction applies exactly four patterns in fixed
order (Android, generic OS-with-underscores, Windows NT, Mac OS X); it
returns the first matching pattern's capture with underscores replaced by
dots (a no-op for the `[\d.]` captures of patterns 1 and 3), only the
first matching pattern is used, and `"unknown"` is returned when none
match. -/
theorem c6_os_version_order (ua : List Char) :
    (∀ v, scanMatch ("Android".toList) isDigitDot ua = some v →
      getOSVersion ua = ⟨v.map undToDot⟩) ∧
    (scanMatch ("Android".toList) isDigitDot ua = none →
      ∀ v, scanMatch ("OS".toList) isDigitUnd ua = some v →
      getOSVersion ua = ⟨v.map undToDot⟩) ∧
    (scanMatch ("Android".toList) isDigitDot ua = none →
      scanMatch ("OS".toList) isDigitUnd ua = none →
      ∀ v, scanMatch ("Windows NT".toList) isDigitDot ua = some v →
      getOSVersion ua = ⟨v.map undToDot⟩) ∧
    (scanMatch ("Android".toList) isDigitDot ua = none →
      scanMatch ("OS".toList) isDigitUnd ua = none →
      scanMatch ("Windows NT".toList) isDigitDot ua = none →
      ∀ v, scanMatch ("Mac OS X".toList) isDigitUnd ua = some v →
      getOSVersion ua = ⟨v.map undToDot⟩) ∧
    (scanMatch ("Android".toList) isDigitDot ua = none →
      scanMatch ("OS".toList) isDigitUnd ua = none →
      scanMatch ("Windows NT".toList) isDigitDot ua = none →
      scanMatch ("Mac OS X".toList) isDigitUnd ua = none →
      getOSVersion ua = "unknown") := by
  refine ⟨?_, ?_, ?_, ?_, ?_⟩
  · intro v hv
    unfold getOSVersion
    rw [hv, map_undToDot_of_digitDot v (scanMatch_all _ _ _ _ hv)]
  · intro h1 v hv
    unfold getOSVersion
    rw [h1, hv]
  · intro h1 h2 v hv
    unfold getOSVersion
    rw [h1, h2, hv, map_undToDot_of_digitDot v (scanMatch_all _ _ _ _ hv)]
  · intro h1 h2 h3 v hv
    unfold getOSVersion
    rw [h1, h2, h3, hv]
  · intro h1 h2 h3 h4
    unfold getOSVersion
    rw [h1, h2, h3, h4]

/-- Witness for `c6_os_version_order`: on `"OS 12_3"` the Android pattern
fails, the second pattern captures `12_3`, and the result is `"12.3"`. -/
theorem c6_os_version_order_witness :
    scanMatch ("Android".toList) isDigitDot ("OS 12_3".toList) = none ∧
    scanMatch ("OS".toList) isDigitUnd ("OS 12_3".toList) = some ("12_3".toList) ∧
    getOSVersion ("OS 12_3".toList) = "12.3" :=
  ⟨by decide, by decide,
   ((c6_os_version_order ("OS 12_3".toList)).2.1 (by decide) ("12_3".toList)
     (by decide)).trans (by decide)⟩
